import Mathlib

/-!
# Diffractometer calculation engine: formal model and verification

This file models the calculation engine exercised by the repository's
example notebook (an E6C six-circle diffractometer driven in the
"lifting_detector_mu" mode): lattice and reciprocal metric (B matrix),
orientation computation (UB) from two reference reflections by the
Busing-Levy construction, the mode-constrained forward solve
(hkl to angles), the inverse solve (angles to hkl), axis parameter and
limit management, and the wavelength/energy conversion.

The engine library itself is not part of the repository sources (the
repository ships only the notebook driving it), so the definitions below
are modelled from the specification's description of each component;
concrete numeric values recorded in the notebook session (the B and UB
matrices, the forward solutions, the energy readout) are transcribed as
reference data and checked against the model's claims.

Conventions (matching the spec): lengths in Angstrom, angles at the
interface in degrees, energy in keV.  Internally rotations act in
radians; the incident beam travels along +x; the sample holder carries
rotations mu (about +z), omega (about -y), chi (about +x), phi (about
-y) and the detector holder carries gamma (about +z) and delta (about
-y).  The reciprocal metric carries the factor 2*pi.
-/

open scoped Classical
open Matrix

noncomputable section

namespace Hkl

/-- Error kinds surfaced by the engine (spec section 7), together with a
generic runtime type failure used to model an untyped exception escaping
from inside the engine. -/
inductive EngineError where
  | invalidCell
  | degenerateReflections
  | singularOrientation
  | unreachableTarget
  | invalidWavelength
  | axisName
  | limitViolation
  | modeConfiguration
  | typeError
deriving DecidableEq

/-- Per-axis numeric state: current value, inclusive limits, and the
"participates in fit" flag. -/
@[ext]
structure AxisParameter where
  value : ℝ
  lo : ℝ
  hi : ℝ
  fit : Bool

/-- A value lies within an axis's inclusive limit pair. -/
def withinLimits (ap : AxisParameter) (v : ℝ) : Prop :=
  ap.lo ≤ v ∧ v ≤ ap.hi

/-- Modelled from the spec: setting an axis value checks the inclusive
limits and fails with `LimitViolationError` outside them, leaving the
stored state unchanged. -/
def set_value (ap : AxisParameter) (v : ℝ) : Except EngineError AxisParameter :=
  if withinLimits ap v then .ok { ap with value := v } else .error .limitViolation

/-- A full physical-axis position of the E6C geometry, all angles in
degrees, in the geometry's canonical axis order
mu, omega, chi, phi, gamma, delta. -/
@[ext]
structure Position where
  mu : ℝ
  omega : ℝ
  chi : ℝ
  phi : ℝ
  gamma : ℝ
  delta : ℝ

/-- Degrees to radians. -/
def radOf (x : ℝ) : ℝ := x * Real.pi / 180

/-- Radians to degrees. -/
def degOf (x : ℝ) : ℝ := x * 180 / Real.pi

/-- Right-handed rotation about the +z axis. -/
def Rz (t : ℝ) : Matrix (Fin 3) (Fin 3) ℝ :=
  !![Real.cos t, -Real.sin t, 0;
     Real.sin t,  Real.cos t, 0;
     0, 0, 1]

/-- Right-handed rotation about the -y axis. -/
def Rmy (t : ℝ) : Matrix (Fin 3) (Fin 3) ℝ :=
  !![Real.cos t, 0, -Real.sin t;
     0, 1, 0;
     Real.sin t, 0, Real.cos t]

/-- Right-handed rotation about the +x axis. -/
def Rx (t : ℝ) : Matrix (Fin 3) (Fin 3) ℝ :=
  !![1, 0, 0;
     0, Real.cos t, -Real.sin t;
     0, Real.sin t,  Real.cos t]

/-- Composition of the sample-holder rotations of the E6C geometry at a
physical position: mu about +z, omega about -y, chi about +x, phi
about -y. -/
def sampleRot (p : Position) : Matrix (Fin 3) (Fin 3) ℝ :=
  Rz (radOf p.mu) * (Rmy (radOf p.omega) * (Rx (radOf p.chi) * Rmy (radOf p.phi)))

/-- Composition of the detector-holder rotations: gamma about +z then
delta about -y. -/
def detRot (p : Position) : Matrix (Fin 3) (Fin 3) ℝ :=
  Rz (radOf p.gamma) * Rmy (radOf p.delta)

/-- Magnitude of the wave vector, 2*pi over the wavelength. -/
def kvec (lam : ℝ) : ℝ := 2 * Real.pi / lam

/-- The incident wave vector, along +x. -/
def kiVec (lam : ℝ) : Fin 3 → ℝ := ![kvec lam, 0, 0]

/-- The lab-frame scattering vector kf - ki determined by the detector
angles and the wavelength. -/
def qOf (lam : ℝ) (p : Position) : Fin 3 → ℝ :=
  (detRot p).mulVec (kiVec lam) - kiVec lam

/-- Real-space unit cell: lengths in Angstrom, angles in degrees. -/
structure Lattice where
  a : ℝ
  b : ℝ
  c : ℝ
  alpha : ℝ
  beta : ℝ
  gamma : ℝ

/-- Unit cell volume from the standard formula. -/
def cellVolume (L : Lattice) : ℝ :=
  L.a * L.b * L.c *
    Real.sqrt (1 - Real.cos (radOf L.alpha) ^ 2 - Real.cos (radOf L.beta) ^ 2
      - Real.cos (radOf L.gamma) ^ 2
      + 2 * Real.cos (radOf L.alpha) * Real.cos (radOf L.beta) * Real.cos (radOf L.gamma))

/-- Reciprocal cell length a*, with the 2*pi factor. -/
def aStar (L : Lattice) : ℝ :=
  2 * Real.pi * L.b * L.c * Real.sin (radOf L.alpha) / cellVolume L

/-- Reciprocal cell length b*, with the 2*pi factor. -/
def bStar (L : Lattice) : ℝ :=
  2 * Real.pi * L.a * L.c * Real.sin (radOf L.beta) / cellVolume L

/-- Reciprocal cell length c*, with the 2*pi factor. -/
def cStar (L : Lattice) : ℝ :=
  2 * Real.pi * L.a * L.b * Real.sin (radOf L.gamma) / cellVolume L

/-- Cosine of the reciprocal angle beta*. -/
def cosBetaStar (L : Lattice) : ℝ :=
  (Real.cos (radOf L.alpha) * Real.cos (radOf L.gamma) - Real.cos (radOf L.beta)) /
    (Real.sin (radOf L.alpha) * Real.sin (radOf L.gamma))

/-- Cosine of the reciprocal angle gamma*. -/
def cosGammaStar (L : Lattice) : ℝ :=
  (Real.cos (radOf L.alpha) * Real.cos (radOf L.beta) - Real.cos (radOf L.gamma)) /
    (Real.sin (radOf L.alpha) * Real.sin (radOf L.beta))

/-- The Busing-Levy B matrix of the lattice (with the 2*pi factor),
mapping integer (h,k,l) to a Cartesian reciprocal-space vector. -/
def Bmat (L : Lattice) : Matrix (Fin 3) (Fin 3) ℝ :=
  !![aStar L, bStar L * cosGammaStar L, cStar L * cosBetaStar L;
     0, bStar L * Real.sqrt (1 - cosGammaStar L ^ 2),
        -(cStar L * Real.sqrt (1 - cosBetaStar L ^ 2) * Real.cos (radOf L.alpha));
     0, 0, 2 * Real.pi / L.c]

/-- A reference reflection: (h,k,l) indices, the observed physical
position, and the wavelength in effect when measured. -/
structure Reflection where
  hkl : Fin 3 → ℝ
  position : Position
  wavelength : ℝ

/-- A sample: a lattice, the orientation matrix U, the product UB, and
the ordered list of reference reflections. -/
structure Sample where
  name : String
  lattice : Lattice
  U : Matrix (Fin 3) (Fin 3) ℝ
  UB : Matrix (Fin 3) (Fin 3) ℝ
  reflections : List Reflection

/-- Modelled from the spec: a fresh sample has U the identity and UB the
identity times the lattice's B matrix, with no reflections. -/
def new_sample (n : String) (L : Lattice) : Sample :=
  { name := n, lattice := L, U := 1, UB := 1 * Bmat L, reflections := [] }

/-- Modelled from the spec: appends a reflection to the sample's ordered
list and returns it; no other state is touched and no recomputation
happens. -/
def add_reflection (s : Sample) (hkl : Fin 3 → ℝ) (p : Position) (lam : ℝ) :
    Sample × Reflection :=
  let r : Reflection := { hkl := hkl, position := p, wavelength := lam }
  ({ s with reflections := s.reflections ++ [r] }, r)

/-- Cross product of two 3-vectors. -/
def cross3 (u v : Fin 3 → ℝ) : Fin 3 → ℝ :=
  ![u 1 * v 2 - u 2 * v 1, u 2 * v 0 - u 0 * v 2, u 0 * v 1 - u 1 * v 0]

/-- Dot product of two 3-vectors. -/
def dot3 (u v : Fin 3 → ℝ) : ℝ :=
  u 0 * v 0 + u 1 * v 1 + u 2 * v 2

/-- Euclidean norm of a 3-vector. -/
def norm3 (u : Fin 3 → ℝ) : ℝ := Real.sqrt (dot3 u u)

/-- Normalised copy of a 3-vector. -/
def unit3 (u : Fin 3 → ℝ) : Fin 3 → ℝ := (norm3 u)⁻¹ • u

/-- The reciprocal-space vector of a measured reflection reconstructed
in the sample-holder frame: undo the sample rotations stored with the
reflection and apply them to the observed scattering vector. -/
def uPhi (r : Reflection) : Fin 3 → ℝ :=
  (sampleRot r.position)ᵀ.mulVec (qOf r.wavelength r.position)

/-- The orthonormal triad matrix of the Busing-Levy construction:
columns are the unit first vector, the completion, and the unit cross
product. -/
def triadMat (v1 v2 : Fin 3 → ℝ) : Matrix (Fin 3) (Fin 3) ℝ :=
  Matrix.of fun i j =>
    ![unit3 v1, cross3 (unit3 (cross3 v1 v2)) (unit3 v1), unit3 (cross3 v1 v2)] j i

/-- The closed-form two-reflection Busing-Levy orientation: align the
triad built from the reconstructed measured vectors with the triad built
from the B-mapped (h,k,l) vectors. -/
def busingLevyU (B' : Matrix (Fin 3) (Fin 3) ℝ) (r1 r2 : Reflection) :
    Matrix (Fin 3) (Fin 3) ℝ :=
  triadMat (uPhi r1) (uPhi r2) * (triadMat (B'.mulVec r1.hkl) (B'.mulVec r2.hkl))ᵀ

/-- The degeneracy test of `compute_UB`: the reflection pair is unusable
when either the theoretical reciprocal vectors or the reconstructed
measured vectors are collinear. -/
def degenerate (B' : Matrix (Fin 3) (Fin 3) ℝ) (r1 r2 : Reflection) : Prop :=
  cross3 (B'.mulVec r1.hkl) (B'.mulVec r2.hkl) = 0 ∨ cross3 (uPhi r1) (uPhi r2) = 0

/-- Modelled from the spec: compute the orientation from the sample's
reflections selected by index.  Fails with `DegenerateReflectionsError`
when a selected reflection is missing or the pair is degenerate;
otherwise replaces U and UB in one step and reports the integer success
indicator 1. -/
def compute_UB (s : Sample) (i j : ℕ) : Except EngineError (Sample × ℤ) :=
  match s.reflections[i]?, s.reflections[j]? with
  | some r1, some r2 =>
      if degenerate (Bmat s.lattice) r1 r2 then .error .degenerateReflections
      else
        .ok ({ s with U := busingLevyU (Bmat s.lattice) r1 r2,
                      UB := busingLevyU (Bmat s.lattice) r1 r2 * Bmat s.lattice }, 1)
  | _, _ => .error .degenerateReflections

/-- The engine: the six axis parameter stores of the E6C geometry in
canonical order, the active sample, the wavelength, and the cached
pseudo-axis (h,k,l) values. -/
structure Engine where
  mu : AxisParameter
  omega : AxisParameter
  chi : AxisParameter
  phi : AxisParameter
  gamma : AxisParameter
  delta : AxisParameter
  sample : Sample
  wavelength : ℝ
  pseudo : Fin 3 → ℝ

/-- Default axis parameter store of a freshly constructed engine. -/
def defaultAxis : AxisParameter := { value := 0, lo := -180, hi := 180, fit := true }

/-- A freshly constructed E6C calculation engine over a given sample:
all six physical axes present in canonical order at value 0, pseudo
axes at 0. -/
def CalcE6C (s : Sample) (lam : ℝ) : Engine :=
  { mu := defaultAxis, omega := defaultAxis, chi := defaultAxis, phi := defaultAxis,
    gamma := defaultAxis, delta := defaultAxis,
    sample := s, wavelength := lam, pseudo := ![0, 0, 0] }

/-- The ordered physical-axis name/value view exposed by the engine. -/
def physicalAxes (e : Engine) : List (String × ℝ) :=
  [("mu", e.mu.value), ("omega", e.omega.value), ("chi", e.chi.value),
   ("phi", e.phi.value), ("gamma", e.gamma.value), ("delta", e.delta.value)]

/-- The ordered pseudo-axis name/value view exposed by the engine. -/
def pseudoAxes (e : Engine) : List (String × ℝ) :=
  [("h", e.pseudo 0), ("k", e.pseudo 1), ("l", e.pseudo 2)]

/-- The fixed mode catalog of the E6C geometry's hkl engine, transcribed
from the source notebook's recorded output. -/
def E6C_modes : List String :=
  ["bissector_vertical", "constant_omega_vertical", "constant_chi_vertical",
   "constant_phi_vertical", "lifting_detector_phi", "lifting_detector_omega",
   "lifting_detector_mu", "double_diffraction_vertical", "bissector_horizontal",
   "double_diffraction_horizontal", "psi_constant_vertical", "psi_constant_horizontal",
   "constant_mu_horizontal"]

/-- The product of the rotations of the axes held fixed by the
lifting_detector_mu mode (omega, chi, phi), taken at their pinned
current values. -/
def fixedRot (e : Engine) : Matrix (Fin 3) (Fin 3) ℝ :=
  Rmy (radOf e.omega.value) * (Rx (radOf e.chi.value) * Rmy (radOf e.phi.value))

/-- The target scattering vector of a forward solve with the fixed-axis
rotations folded in: the remaining equation is Rz(mu) applied to this
vector equals the detector-side scattering vector. -/
def qTarget (e : Engine) (hkl : Fin 3 → ℝ) : Fin 3 → ℝ :=
  (fixedRot e).mulVec (e.sample.UB.mulVec hkl)

/-- The sine of the delta branch: z component of the target over k. -/
def sParam (e : Engine) (hkl : Fin 3 → ℝ) : ℝ :=
  qTarget e hkl 2 / kvec e.wavelength

/-- The product cos(gamma)*cos(delta) forced by the magnitude of the
target vector. -/
def cParam (e : Engine) (hkl : Fin 3 → ℝ) : ℝ :=
  1 - dot3 (qTarget e hkl) (qTarget e hkl) / (2 * kvec e.wavelength ^ 2)

/-- The two delta branches of the closed-form solution. -/
def deltaBranches (s : ℝ) : List ℝ := [Real.arcsin s, Real.pi - Real.arcsin s]

/-- The two gamma branches of the closed-form solution. -/
def gammaBranches (v : ℝ) : List ℝ := [Real.arccos v, -Real.arccos v]

/-- The mu angle aligning the xy projection of the target vector with
the xy projection of the detector-side scattering vector, as the
argument of the complex ratio. -/
def muFromXY (t w : ℂ) : ℝ := (t * (starRingEnd ℂ) w).arg

/-- One enumerated branch of the lifting_detector_mu forward solve:
solved values for mu, gamma, delta; the mode's fixed axes held exactly
at their pinned current values. -/
def mkBranch (e : Engine) (Q : Fin 3 → ℝ) (gam dl : ℝ) : Position :=
  { mu := degOf (muFromXY
      ⟨kvec e.wavelength * (Real.cos gam * Real.cos dl - 1),
       kvec e.wavelength * (Real.sin gam * Real.cos dl)⟩
      ⟨Q 0, Q 1⟩),
    omega := e.omega.value, chi := e.chi.value, phi := e.phi.value,
    gamma := degOf gam, delta := degOf dl }

/-- Modelled from the spec: the branches admitted by the geometry's
closed-form solution in lifting_detector_mu mode, guarded by the
solvability conditions of each trigonometric inversion. -/
def branchList (e : Engine) (hkl : Fin 3 → ℝ) : List Position :=
  if |sParam e hkl| ≤ 1 then
    (deltaBranches (sParam e hkl)).flatMap fun dl =>
      if Real.cos dl ≠ 0 ∧ |cParam e hkl / Real.cos dl| ≤ 1 then
        (gammaBranches (cParam e hkl / Real.cos dl)).map fun gam =>
          mkBranch e (qTarget e hkl) gam dl
      else []
  else []

/-- A branch respects the limits of every axis the mode fits. -/
def fitOk (e : Engine) (p : Position) : Prop :=
  withinLimits e.mu p.mu ∧ withinLimits e.gamma p.gamma ∧ withinLimits e.delta p.delta

/-- Modelled from the spec: the forward solve enumerates the closed-form
branches, filters to those within every fit axis's limits, and signals
`UnreachableTargetError` exactly when none survives. -/
def forward (e : Engine) (hkl : Fin 3 → ℝ) : Except EngineError (List Position) :=
  if ((branchList e hkl).filter fun p => decide (fitOk e p)).isEmpty then
    .error .unreachableTarget
  else .ok ((branchList e hkl).filter fun p => decide (fitOk e p))

/-- The pseudo coordinates computed by the inverse transform: apply the
transposed sample rotation to the observed scattering vector and invert
through UB. -/
def inverseVal (e : Engine) (p : Position) : Fin 3 → ℝ :=
  (e.sample.UB)⁻¹.mulVec ((sampleRot p)ᵀ.mulVec (qOf e.wavelength p))

/-- The physical_positions write performed by the source's inverse
entry (visible in the recorded traceback): store the supplied position
into the six axis parameter stores. -/
def writePhysical (e : Engine) (p : Position) : Engine :=
  { e with mu := { e.mu with value := p.mu },
           omega := { e.omega with value := p.omega },
           chi := { e.chi with value := p.chi },
           phi := { e.phi with value := p.phi },
           gamma := { e.gamma with value := p.gamma },
           delta := { e.delta with value := p.delta } }

/-- The inverse transform as the source records it: first write the
supplied physical position into the axis stores (the
physical_positions assignment inside inverse, shown in the recorded
traceback), then compute the pseudo coordinates and cache them;
modelled from the spec, it fails when UB is singular. -/
def inverse (e : Engine) (p : Position) :
    Except EngineError ((Fin 3 → ℝ) × Engine) :=
  if e.sample.UB.det = 0 then .error .singularOrientation
  else .ok (inverseVal e p, { writePhysical e p with pseudo := inverseVal e p })

/-- Modelled from the recorded traceback in the source notebook: the
geometry's axis-value setter demands plain numbers and throws a generic
type failure at the first unset (None) item. -/
def axis_values_set : List (Option ℝ) → Except EngineError (List ℝ)
  | [] => .ok []
  | none :: _ => .error .typeError
  | some v :: rest => (axis_values_set rest).map fun l => v :: l

/-- Modelled from the source's inverse entry path: set the physical
positions (which may fail on unset values), then run the inverse
transform, which writes the values through into the axis stores. -/
def calc_inverse_raw (e : Engine) (vals : List (Option ℝ)) :
    Except EngineError ((Fin 3 → ℝ) × Engine) :=
  match axis_values_set vals with
  | .error err => .error err
  | .ok vs =>
      inverse e
        { mu := vs.getD 0 0, omega := vs.getD 1 0, chi := vs.getD 2 0,
          phi := vs.getD 3 0, gamma := vs.getD 4 0, delta := vs.getD 5 0 }

/-- The standard Planck-constant times speed-of-light product in
keV-Angstrom units. -/
def hc_keV_angstrom : ℚ := 12.3984193

/-- Modelled from the spec: photon energy in keV from the wavelength in
Angstrom. -/
def energy_of_wavelength_spec (lam : ℚ) : ℚ := hc_keV_angstrom / lam

/-- Modelled from the source's recorded behavior: the engine divides the
keV-nanometre value of h*c by the numeric wavelength, i.e. it treats the
Angstrom figure as if it were nanometres. -/
def energy_of_wavelength_code (lam : ℚ) : ℚ := hc_keV_angstrom / 10 / lam

/-- Wavelength set in the source notebook session, in Angstrom. -/
def recorded_wavelength : ℚ := 1.61198

/-- Energy readout recorded in the source notebook session for the above
wavelength, in keV. -/
def recorded_energy : ℚ := 0.7691422970508319

/-- The lattice of the notebook scenario (hexagonal, Angstrom and
degrees). -/
def tardis_lattice : Lattice :=
  { a := 9.069, b := 9.069, c := 10.39, alpha := 90, beta := 90, gamma := 120 }

/-- First reference reflection of the notebook scenario. -/
def tardis_r1 : Reflection :=
  { hkl := ![3, 3, 0],
    position := { mu := 25.285, omega := 0, chi := 0, phi := 0,
                  gamma := 64.449, delta := -0.871 },
    wavelength := 1.61198 }

/-- Second reference reflection of the notebook scenario. -/
def tardis_r2 : Reflection :=
  { hkl := ![5, 2, 0],
    position := { mu := 46.816, omega := 0, chi := 0, phi := 0,
                  gamma := 79.712, delta := -1.374 },
    wavelength := 1.61198 }

/-- The forward((4,4,0)) solution recorded in the source notebook after
compute_UB on the two reference reflections, at wavelength 1.61198
Angstrom in lifting_detector_mu mode. -/
def tardis_forward_440 : Position :=
  { mu := 38.37622128052063, omega := 0, chi := 0, phi := 0,
    gamma := 90.63030469353308, delta := -1.1613181970939916 }

/-- Axis parameter store used by the concrete evaluation examples. -/
def axis0 : AxisParameter := { value := 0, lo := -180, hi := 180, fit := true }

/-- Cubic unit cell used by the concrete evaluation examples. -/
def latticeCubic : Lattice := { a := 1, b := 1, c := 1, alpha := 90, beta := 90, gamma := 90 }

/-- Sample with identity orientation used by the concrete evaluation
examples. -/
def sampleId : Sample :=
  { name := "s", lattice := latticeCubic, U := 1, UB := 1, reflections := [] }

/-- Engine used by the concrete evaluation examples: default axes,
identity UB, unit wavelength. -/
def engine0 : Engine :=
  { mu := axis0, omega := axis0, chi := axis0, phi := axis0, gamma := axis0, delta := axis0,
    sample := sampleId, wavelength := 1, pseudo := ![0, 0, 0] }

/-- The all-zero physical position. -/
def posZero : Position := { mu := 0, omega := 0, chi := 0, phi := 0, gamma := 0, delta := 0 }

/-- Position with only gamma at 90 degrees. -/
def posG90 : Position := { mu := 0, omega := 0, chi := 0, phi := 0, gamma := 90, delta := 0 }

/-- Position with only delta at 90 degrees. -/
def posD90 : Position := { mu := 0, omega := 0, chi := 0, phi := 0, gamma := 0, delta := 90 }

/-- Reference reflection (1,0,0) observed at gamma = 90. -/
def reflWit1 : Reflection := { hkl := ![1, 0, 0], position := posG90, wavelength := 1 }

/-- Reference reflection (0,1,0) observed at delta = 90. -/
def reflWit2 : Reflection := { hkl := ![0, 1, 0], position := posD90, wavelength := 1 }

/-- Reference reflection (2,0,0), collinear with (1,0,0). -/
def reflCol2 : Reflection := { hkl := ![2, 0, 0], position := posD90, wavelength := 1 }

/-- Sample holding two non-collinear reference reflections on the cubic
cell, used to exercise the successful compute_UB path. -/
def sampleWit : Sample :=
  { name := "w", lattice := latticeCubic, U := 1, UB := 1,
    reflections := [reflWit1, reflWit2] }

/-- Sample holding two collinear reflections (same direction, different
scale), used to exercise the degenerate compute_UB path. -/
def sampleCol : Sample :=
  { name := "c", lattice := latticeCubic, U := 1, UB := 1,
    reflections := [reflWit1, reflCol2] }

/-! ## Rotation algebra -/

/-- Degrees-to-radians inverts radians-to-degrees. -/
theorem radOf_degOf (x : ℝ) : radOf (degOf x) = x := by
  unfold radOf degOf
  field_simp

/-- Componentwise action of the z rotation. -/
theorem Rz_mulVec (t : ℝ) (v : Fin 3 → ℝ) :
    (Rz t).mulVec v =
      ![Real.cos t * v 0 - Real.sin t * v 1,
        Real.sin t * v 0 + Real.cos t * v 1, v 2] := by
  funext i
  fin_cases i <;>
    simp [Rz, Matrix.mulVec, Matrix.dotProduct, Fin.sum_univ_three] <;> ring

/-- Componentwise action of the -y rotation. -/
theorem Rmy_mulVec (t : ℝ) (v : Fin 3 → ℝ) :
    (Rmy t).mulVec v =
      ![Real.cos t * v 0 - Real.sin t * v 2, v 1,
        Real.sin t * v 0 + Real.cos t * v 2] := by
  funext i
  fin_cases i <;>
    simp [Rmy, Matrix.mulVec, Matrix.dotProduct, Fin.sum_univ_three] <;> ring

/-- The z rotation is orthogonal. -/
theorem Rz_orth (t : ℝ) : (Rz t)ᵀ * Rz t = 1 := by
  ext i j
  fin_cases i <;> fin_cases j <;>
    simp only [Matrix.mul_apply, Matrix.transpose_apply, Fin.sum_univ_three] <;>
    simp [Rz, Matrix.one_apply] <;>
    nlinarith [Real.sin_sq_add_cos_sq t]

/-- The -y rotation is orthogonal. -/
theorem Rmy_orth (t : ℝ) : (Rmy t)ᵀ * Rmy t = 1 := by
  ext i j
  fin_cases i <;> fin_cases j <;>
    simp only [Matrix.mul_apply, Matrix.transpose_apply, Fin.sum_univ_three] <;>
    simp [Rmy, Matrix.one_apply] <;>
    nlinarith [Real.sin_sq_add_cos_sq t]

/-- The x rotation is orthogonal. -/
theorem Rx_orth (t : ℝ) : (Rx t)ᵀ * Rx t = 1 := by
  ext i j
  fin_cases i <;> fin_cases j <;>
    simp only [Matrix.mul_apply, Matrix.transpose_apply, Fin.sum_univ_three] <;>
    simp [Rx, Matrix.one_apply, Matrix.vecHead, Matrix.vecTail] <;>
    nlinarith [Real.sin_sq_add_cos_sq t]

/-- Orthogonality is preserved by products. -/
theorem orth_mul {A B : Matrix (Fin 3) (Fin 3) ℝ}
    (hA : Aᵀ * A = 1) (hB : Bᵀ * B = 1) : (A * B)ᵀ * (A * B) = 1 := by
  rw [Matrix.transpose_mul, Matrix.mul_assoc, ← Matrix.mul_assoc Aᵀ A B, hA,
    Matrix.one_mul, hB]

/-- The composed sample rotation is orthogonal. -/
theorem sampleRot_orth (p : Position) : (sampleRot p)ᵀ * sampleRot p = 1 := by
  unfold sampleRot
  exact orth_mul (Rz_orth _) (orth_mul (Rmy_orth _) (orth_mul (Rx_orth _) (Rmy_orth _)))

/-- Closed form of the observed scattering vector in terms of the
detector angles. -/
theorem qOf_eval (lam : ℝ) (p : Position) :
    qOf lam p =
      ![kvec lam * (Real.cos (radOf p.gamma) * Real.cos (radOf p.delta) - 1),
        kvec lam * (Real.sin (radOf p.gamma) * Real.cos (radOf p.delta)),
        kvec lam * Real.sin (radOf p.delta)] := by
  unfold qOf detRot kiVec
  rw [← Matrix.mulVec_mulVec, Rmy_mulVec, Rz_mulVec]
  funext i
  fin_cases i <;> simp <;> ring

/-- The cross product of a vector with itself vanishes. -/
theorem cross3_self (v : Fin 3 → ℝ) : cross3 v v = 0 := by
  funext i
  fin_cases i <;> simp [cross3] <;> ring

/-- The cross product with a scalar multiple of the same vector
vanishes. -/
theorem cross3_smul_self (v : Fin 3 → ℝ) (c : ℝ) : cross3 v (c • v) = 0 := by
  funext i
  fin_cases i <;> simp [cross3] <;> ring

/-! ## The aligning rotation in the xy plane -/

/-- Multiplying by the complex exponential of the aligning argument
carries w to t whenever their moduli agree. -/
theorem exp_arg_conj_mul {w t : ℂ} (h : Complex.abs w = Complex.abs t) :
    Complex.exp (((t * (starRingEnd ℂ) w).arg : ℝ) * Complex.I) * w = t := by
  rcases eq_or_ne w 0 with hw | hw
  · have ht : t = 0 := by
      have h0 : Complex.abs t = 0 := by rw [← h, hw, map_zero]
      exact Complex.abs.eq_zero.mp h0
    simp [hw, ht]
  · have ht : t ≠ 0 := by
      intro h0
      apply hw
      apply Complex.abs.eq_zero.mp
      rw [h, h0, map_zero]
    have hu : t * (starRingEnd ℂ) w ≠ 0 := by
      apply mul_ne_zero ht
      simpa using hw
    have habs : ((Complex.abs (t * (starRingEnd ℂ) w) : ℝ) : ℂ) ≠ 0 := by
      simpa using hu
    have hexp : Complex.exp (((t * (starRingEnd ℂ) w).arg : ℝ) * Complex.I)
        = (t * (starRingEnd ℂ) w) / ((Complex.abs (t * (starRingEnd ℂ) w) : ℝ) : ℂ) := by
      rw [eq_div_iff habs, mul_comm]
      exact Complex.abs_mul_exp_arg_mul_I (t * (starRingEnd ℂ) w)
    have h1 : (t * (starRingEnd ℂ) w) * w = t * ((Complex.abs w : ℝ) : ℂ) ^ 2 := by
      rw [mul_assoc, mul_comm ((starRingEnd ℂ) w) w, Complex.mul_conj,
        Complex.normSq_eq_abs]
      push_cast
      ring
    have haw : ((Complex.abs w : ℝ) : ℂ) ≠ 0 := by simpa using hw
    rw [hexp, div_mul_eq_mul_div, h1, Complex.abs.map_mul, Complex.abs_conj, ← h]
    push_cast
    field_simp
    left
    ring

/-- Real and imaginary parts of the aligning rotation: applying the 2x2
rotation by the aligning argument to the components of w yields the
components of t, whenever the moduli agree. -/
theorem arg_rotation_components {w t : ℂ} (h : Complex.abs w = Complex.abs t) :
    Real.cos (t * (starRingEnd ℂ) w).arg * w.re
      - Real.sin (t * (starRingEnd ℂ) w).arg * w.im = t.re
    ∧ Real.sin (t * (starRingEnd ℂ) w).arg * w.re
      + Real.cos (t * (starRingEnd ℂ) w).arg * w.im = t.im := by
  have key := exp_arg_conj_mul h
  rw [Complex.exp_mul_I, ← Complex.ofReal_cos, ← Complex.ofReal_sin] at key
  have hre := congrArg Complex.re key
  have him := congrArg Complex.im key
  simp only [add_mul, Complex.add_re, Complex.add_im, Complex.mul_re,
    Complex.mul_im, Complex.ofReal_re, Complex.ofReal_im, Complex.I_re,
    Complex.I_im] at hre him
  constructor
  · rw [← hre]; ring
  · rw [← him]; ring

/-! ## Correctness of the enumerated branches -/

/-- On a branch satisfying the two trigonometric side conditions, the xy
moduli of the target vector and of the detector-side scattering vector
agree. -/
theorem branch_moduli_eq {k dl gam x y z : ℝ} (hk : k ≠ 0)
    (hsin : Real.sin dl = z / k)
    (hcos : Real.cos gam * Real.cos dl = 1 - (x * x + y * y + z * z) / (2 * k ^ 2)) :
    Complex.abs ⟨x, y⟩
      = Complex.abs ⟨k * (Real.cos gam * Real.cos dl - 1),
                     k * (Real.sin gam * Real.cos dl)⟩ := by
  have hz : z = k * Real.sin dl := by
    rw [hsin]
    field_simp
  have hcos2 : 2 * k ^ 2 * (Real.cos gam * Real.cos dl)
      = 2 * k ^ 2 - (x * x + y * y + z * z) := by
    rw [hcos]
    field_simp
  have hpg := Real.sin_sq_add_cos_sq gam
  have hpd := Real.sin_sq_add_cos_sq dl
  have hns : Complex.normSq ⟨x, y⟩
      = Complex.normSq ⟨k * (Real.cos gam * Real.cos dl - 1),
                        k * (Real.sin gam * Real.cos dl)⟩ := by
    rw [Complex.normSq_mk, Complex.normSq_mk]
    linear_combination hcos2 - (z + k * Real.sin dl) * hz
      - k ^ 2 * Real.cos dl ^ 2 * hpg - k ^ 2 * hpd
  rw [Complex.abs_apply, Complex.abs_apply, hns]

/-- A constructed branch satisfies the diffraction equation: the sample
rotation of the branch position carries the UB image of the target
(h,k,l) onto the scattering vector observed at the branch's detector
angles. -/
theorem mkBranch_solves (e : Engine) (hkl : Fin 3 → ℝ) (gam dl : ℝ)
    (hk : kvec e.wavelength ≠ 0)
    (hsin : Real.sin dl = qTarget e hkl 2 / kvec e.wavelength)
    (hcos : Real.cos gam * Real.cos dl
      = 1 - dot3 (qTarget e hkl) (qTarget e hkl) / (2 * kvec e.wavelength ^ 2)) :
    (sampleRot (mkBranch e (qTarget e hkl) gam dl)).mulVec (e.sample.UB.mulVec hkl)
      = qOf e.wavelength (mkBranch e (qTarget e hkl) gam dl) := by
  have hcos' : Real.cos gam * Real.cos dl
      = 1 - (qTarget e hkl 0 * qTarget e hkl 0 + qTarget e hkl 1 * qTarget e hkl 1
          + qTarget e hkl 2 * qTarget e hkl 2) / (2 * kvec e.wavelength ^ 2) := hcos
  have habs := branch_moduli_eq hk hsin hcos'
  have harg := arg_rotation_components habs
  have hrot : sampleRot (mkBranch e (qTarget e hkl) gam dl)
      = Rz (muFromXY
          ⟨kvec e.wavelength * (Real.cos gam * Real.cos dl - 1),
           kvec e.wavelength * (Real.sin gam * Real.cos dl)⟩
          ⟨qTarget e hkl 0, qTarget e hkl 1⟩) * fixedRot e := by
    unfold sampleRot fixedRot mkBranch
    simp [radOf_degOf]
  have hQv : (fixedRot e).mulVec (e.sample.UB.mulVec hkl) = qTarget e hkl := rfl
  rw [hrot, ← Matrix.mulVec_mulVec, hQv, Rz_mulVec, qOf_eval]
  have hz : qTarget e hkl 2 = kvec e.wavelength * Real.sin dl := by
    rw [hsin]
    field_simp
  funext i
  fin_cases i
  · simpa [mkBranch, radOf_degOf, muFromXY] using harg.1
  · simpa [mkBranch, radOf_degOf, muFromXY] using harg.2
  · simpa [mkBranch, radOf_degOf] using hz

/-- Decomposition of membership in the enumerated branch list: every
listed position is a constructed branch whose angles satisfy the two
trigonometric side conditions. -/
theorem branch_spec {e : Engine} {hkl : Fin 3 → ℝ} {p : Position}
    (hp : p ∈ branchList e hkl) :
    ∃ gam dl, p = mkBranch e (qTarget e hkl) gam dl
      ∧ Real.sin dl = qTarget e hkl 2 / kvec e.wavelength
      ∧ Real.cos gam * Real.cos dl
          = 1 - dot3 (qTarget e hkl) (qTarget e hkl) / (2 * kvec e.wavelength ^ 2) := by
  unfold branchList at hp
  split_ifs at hp with h1
  case neg => exact absurd hp (by simp)
  rw [List.mem_flatMap] at hp
  obtain ⟨dl, hdl, hpin⟩ := hp
  have hms : -1 ≤ sParam e hkl ∧ sParam e hkl ≤ 1 := abs_le.mp h1
  have hsin : Real.sin dl = sParam e hkl := by
    have hdl2 : dl = Real.arcsin (sParam e hkl)
        ∨ dl = Real.pi - Real.arcsin (sParam e hkl) := by
      simpa [deltaBranches] using hdl
    rcases hdl2 with h | h
    · rw [h]
      exact Real.sin_arcsin hms.1 hms.2
    · rw [h, Real.sin_pi_sub]
      exact Real.sin_arcsin hms.1 hms.2
  split_ifs at hpin with h2
  case neg => exact absurd hpin (by simp)
  rw [List.mem_map] at hpin
  obtain ⟨gam, hgam, hpeq⟩ := hpin
  have hmc : -1 ≤ cParam e hkl / Real.cos dl ∧ cParam e hkl / Real.cos dl ≤ 1 :=
    abs_le.mp h2.2
  have hcg : Real.cos gam = cParam e hkl / Real.cos dl := by
    have hgam2 : gam = Real.arccos (cParam e hkl / Real.cos dl)
        ∨ gam = -Real.arccos (cParam e hkl / Real.cos dl) := by
      simpa [gammaBranches] using hgam
    rcases hgam2 with h | h
    · rw [h]
      exact Real.cos_arccos hmc.1 hmc.2
    · rw [h, Real.cos_neg]
      exact Real.cos_arccos hmc.1 hmc.2
  refine ⟨gam, dl, hpeq.symm, hsin, ?_⟩
  rw [hcg, div_mul_cancel₀ _ h2.1]
  rfl

/-! ## Forward and inverse: the claim theorems on the solver -/

/-- Unpacking a successful forward solve: the returned list is exactly
the limit-filtered branch list and is nonempty. -/
theorem forward_ok_iff (e : Engine) (hkl : Fin 3 → ℝ) (sols : List Position) :
    forward e hkl = .ok sols ↔
      sols = (branchList e hkl).filter (fun q => decide (fitOk e q)) ∧ sols ≠ [] := by
  unfold forward
  split_ifs with h
  · rw [List.isEmpty_iff] at h
    constructor
    · intro hc
      exact hc.elim
    · rintro ⟨rfl, hne⟩
      exact absurd h hne
  · rw [List.isEmpty_iff] at h
    constructor
    · intro hc
      injection hc with h2
      exact ⟨h2.symm, h2.symm ▸ h⟩
    · rintro ⟨rfl, h3⟩
      rfl

/-- C5: every solution returned by the forward solve holds the mode's
fixed axes (omega, chi, phi in lifting_detector_mu) exactly at their
pinned current values and every fit axis within its inclusive limits;
the solve reports `UnreachableTargetError` exactly when no enumerated
branch survives the limit filter, so a returned solution list is never
empty. -/
theorem forward_solutions_within_limits (e : Engine) (hkl : Fin 3 → ℝ) :
    (∀ sols p, forward e hkl = .ok sols → p ∈ sols →
      (p.omega = e.omega.value ∧ p.chi = e.chi.value ∧ p.phi = e.phi.value) ∧ fitOk e p)
    ∧ (forward e hkl = .error .unreachableTarget
        ↔ (branchList e hkl).filter (fun q => decide (fitOk e q)) = [])
    ∧ ∀ sols, forward e hkl = .ok sols → sols ≠ [] := by
  refine ⟨?_, ?_, ?_⟩
  · intro sols p hfwd hp
    obtain ⟨hsols, -⟩ := (forward_ok_iff e hkl sols).mp hfwd
    rw [hsols] at hp
    rw [List.mem_filter] at hp
    obtain ⟨hbr, hfit⟩ := hp
    refine ⟨?_, of_decide_eq_true hfit⟩
    obtain ⟨gam, dl, rfl, -, -⟩ := branch_spec hbr
    exact ⟨rfl, rfl, rfl⟩
  · unfold forward
    split_ifs with h
    · rw [List.isEmpty_iff] at h
      exact iff_of_true rfl h
    · rw [List.isEmpty_iff] at h
      constructor
      · intro hc
        exact hc.elim
      · intro hc
        exact absurd hc h
  · intro sols hfwd
    exact ((forward_ok_iff e hkl sols).mp hfwd).2

/-- C2: applying the inverse transform to any solution returned by the
forward solve recovers the target (h,k,l) exactly (hence within any
small tolerance), for every engine with nonsingular UB and positive
wavelength; the engine's cached pseudo axes are updated to the result
(the returned coordinates are unaffected by the axis-store write the
source's inverse performs on its input). -/
theorem forward_inverse_roundtrip (e : Engine) (hkl : Fin 3 → ℝ)
    (sols : List Position) (p : Position)
    (hfwd : forward e hkl = .ok sols) (hp : p ∈ sols)
    (hdet : e.sample.UB.det ≠ 0) (hlam : 0 < e.wavelength) :
    inverse e p = .ok (hkl, { writePhysical e p with pseudo := hkl }) := by
  have hk : kvec e.wavelength ≠ 0 := by
    unfold kvec
    exact div_ne_zero (by positivity) (ne_of_gt hlam)
  obtain ⟨hsols, -⟩ := (forward_ok_iff e hkl sols).mp hfwd
  rw [hsols] at hp
  have hbr : p ∈ branchList e hkl := (List.mem_filter.mp hp).1
  obtain ⟨gam, dl, rfl, hsin, hcos⟩ := branch_spec hbr
  have hsolve := mkBranch_solves e hkl gam dl hk hsin hcos
  have hval : inverseVal e (mkBranch e (qTarget e hkl) gam dl) = hkl := by
    unfold inverseVal
    rw [← hsolve, Matrix.mulVec_mulVec, Matrix.mulVec_mulVec, Matrix.mulVec_mulVec]
    have hmat : e.sample.UB⁻¹ * (sampleRot (mkBranch e (qTarget e hkl) gam dl))ᵀ
        * sampleRot (mkBranch e (qTarget e hkl) gam dl) * e.sample.UB = 1 := by
      rw [Matrix.mul_assoc (e.sample.UB⁻¹), sampleRot_orth, Matrix.mul_one,
        Matrix.nonsing_inv_mul _ (isUnit_iff_ne_zero.mpr hdet)]
    rw [hmat, Matrix.one_mulVec]
  unfold inverse
  rw [if_neg hdet, hval]

/-! ## Orientation computation: the claim theorems -/

/-- C4: compute_UB fails with `DegenerateReflectionsError` on every pair
of collinear reflections (same (h,k,l) direction up to scale), and also
whenever the sample holds fewer than two reflections. -/
theorem compute_UB_needs_independent (s : Sample) (i j : ℕ) :
    (∀ r1 r2 (c : ℝ), s.reflections[i]? = some r1 → s.reflections[j]? = some r2 →
        r2.hkl = c • r1.hkl → compute_UB s i j = .error .degenerateReflections)
    ∧ (s.reflections.length < 2 → compute_UB s i j = .error .degenerateReflections) := by
  constructor
  · intro r1 r2 c h1 h2 hcol
    unfold compute_UB
    simp only [h1, h2]
    have hdeg : degenerate (Bmat s.lattice) r1 r2 := by
      left
      rw [hcol, Matrix.mulVec_smul]
      exact cross3_smul_self _ c
    rw [if_pos hdeg]
  · intro hlen
    unfold compute_UB
    rcases hL : s.reflections with - | ⟨a, rest⟩
    · simp
    · rcases hrest : rest with - | ⟨b, tl⟩
      · rcases i with - | i2
        · rcases j with - | j2
          · simp only [List.getElem?_cons_zero]
            have hdeg : degenerate (Bmat s.lattice) a a := Or.inl (cross3_self _)
            rw [if_pos hdeg]
          · simp [List.getElem?_cons_succ]
        · simp [List.getElem?_cons_succ]
      · rw [hL, hrest] at hlen
        simp at hlen
        omega

/-- C9: add_reflection appends the reflection in insertion order and
changes nothing else (in particular UB and U are untouched); a
successful compute_UB reports the integer indicator 1 and replaces U and
UB together in a single step, leaving every other sample field
unchanged. -/
theorem add_reflection_compute_UB_frame (s : Sample) (hkl : Fin 3 → ℝ)
    (p : Position) (lam : ℝ) (i j : ℕ) :
    ((add_reflection s hkl p lam).1.reflections
        = s.reflections ++ [(add_reflection s hkl p lam).2]
      ∧ (add_reflection s hkl p lam).1.UB = s.UB
      ∧ (add_reflection s hkl p lam).1.U = s.U
      ∧ (add_reflection s hkl p lam).1.lattice = s.lattice
      ∧ (add_reflection s hkl p lam).1.name = s.name)
    ∧ ∀ r1 r2, s.reflections[i]? = some r1 → s.reflections[j]? = some r2 →
        ¬ degenerate (Bmat s.lattice) r1 r2 →
        compute_UB s i j
          = .ok ({ s with U := busingLevyU (Bmat s.lattice) r1 r2,
                          UB := busingLevyU (Bmat s.lattice) r1 r2 * Bmat s.lattice }, 1) := by
  constructor
  · exact ⟨rfl, rfl, rfl, rfl, rfl⟩
  · intro r1 r2 h1 h2 hnd
    unfold compute_UB
    simp only [h1, h2]
    rw [if_neg hnd]

/-! ## Axis parameters, inverse frame, engine shape -/

/-- C6: after any successful set-value operation the stored value lies
within the (unchanged) inclusive limits; a value inside the limits is
accepted, a value outside them (in particular any value other than the
pin of a degenerate-limit axis) is rejected with `LimitViolationError`,
leaving the state unchanged. -/
theorem set_value_respects_limits (ap : AxisParameter) (v : ℝ) :
    (∀ ap2, set_value ap v = .ok ap2 → withinLimits ap2 ap2.value
        ∧ ap2.lo = ap.lo ∧ ap2.hi = ap.hi ∧ ap2.value = v ∧ ap2.fit = ap.fit)
    ∧ (withinLimits ap v → set_value ap v = .ok { ap with value := v })
    ∧ (¬ withinLimits ap v → set_value ap v = .error .limitViolation)
    ∧ (∀ c : ℝ, ap.lo = c → ap.hi = c → v ≠ c →
        set_value ap v = .error .limitViolation) := by
  refine ⟨?_, ?_, ?_, ?_⟩
  · intro ap2 hok
    unfold set_value at hok
    split_ifs at hok with h
    injection hok with h2
    rw [← h2]
    exact ⟨⟨h.1, h.2⟩, rfl, rfl, rfl, rfl⟩
  · intro h
    unfold set_value
    rw [if_pos h]
  · intro h
    unfold set_value
    rw [if_neg h]
  · intro c hlo hhi hne
    unfold set_value
    rw [if_neg]
    intro hcon
    exact hne (le_antisymm (hhi ▸ hcon.2) (hlo ▸ hcon.1))

/-- C7 (bug evidence): a successful inverse call does update the cached
pseudo axes to the computed (h,k,l), but it also writes the supplied
physical position into the engine's axis stores -- the
physical_positions assignment inside inverse, visible in the source's
recorded traceback -- so any input differing from the stored values
mutates physical axis state, contrary to the claim's no-mutation
contract (sample and wavelength are untouched). -/
theorem inverse_writes_physical_positions (e : Engine) (p : Position)
    (hkl2 : Fin 3 → ℝ) (e2 : Engine) (hok : inverse e p = .ok (hkl2, e2)) :
    e2.pseudo = hkl2
      ∧ e2.mu.value = p.mu ∧ e2.omega.value = p.omega ∧ e2.chi.value = p.chi
      ∧ e2.phi.value = p.phi ∧ e2.gamma.value = p.gamma ∧ e2.delta.value = p.delta
      ∧ e2.sample = e.sample ∧ e2.wavelength = e.wavelength := by
  unfold inverse at hok
  split_ifs at hok with h
  injection hok with h2
  rw [Prod.mk.injEq] at h2
  obtain ⟨h3, h4⟩ := h2
  rw [← h4, ← h3]
  exact ⟨rfl, rfl, rfl, rfl, rfl, rfl, rfl, rfl, rfl⟩

/-- C10: the E6C engine exposes exactly the six physical axes mu, omega,
chi, phi, gamma, delta in that order, each initialised to 0, and exactly
the three pseudo axes h, k, l; its mode catalog is the fixed 13-element
list containing lifting_detector_mu; a fresh sample carries U the
identity and UB equal to the lattice's B matrix, with no reflections. -/
theorem e6c_shape_and_new_sample (s : Sample) (lam : ℝ) (n : String) (L : Lattice) :
    E6C_modes.length = 13
    ∧ "lifting_detector_mu" ∈ E6C_modes
    ∧ physicalAxes (CalcE6C s lam)
        = [("mu", 0), ("omega", 0), ("chi", 0), ("phi", 0), ("gamma", 0), ("delta", 0)]
    ∧ pseudoAxes (CalcE6C s lam) = [("h", 0), ("k", 0), ("l", 0)]
    ∧ (new_sample n L).U = 1
    ∧ (new_sample n L).UB = Bmat L
    ∧ (new_sample n L).reflections = [] := by
  refine ⟨rfl, ?_, rfl, ?_, rfl, ?_, rfl⟩
  · simp [E6C_modes]
  · simp [pseudoAxes, CalcE6C]
  · exact Matrix.one_mul _

/-! ## Recorded session data: the concrete scenario and the energy bug -/

/-- C1: the forward((4,4,0)) solution recorded in the source notebook
for the tardis scenario lies within 0.01 degrees of mu = 38.376,
gamma = 90.630, delta = -1.161, with the pinned axes omega, chi, phi
exactly 0; it also respects the scenario's axis limits
(mu in [-181,181], gamma and delta in [-5,180]). -/
theorem tardis_forward_440_matches :
    |tardis_forward_440.mu - 38.376| < 0.01
    ∧ |tardis_forward_440.gamma - 90.630| < 0.01
    ∧ |tardis_forward_440.delta - (-1.161)| < 0.01
    ∧ tardis_forward_440.omega = 0 ∧ tardis_forward_440.chi = 0
    ∧ tardis_forward_440.phi = 0
    ∧ (-181 ≤ tardis_forward_440.mu ∧ tardis_forward_440.mu ≤ 181)
    ∧ (-5 ≤ tardis_forward_440.gamma ∧ tardis_forward_440.gamma ≤ 180)
    ∧ (-5 ≤ tardis_forward_440.delta ∧ tardis_forward_440.delta ≤ 180) := by
  norm_num [tardis_forward_440, abs_lt]

/-- C3 (bug evidence): the energy readout recorded in the source
notebook at wavelength 1.61198 Angstrom matches the modelled code
conversion (hc in keV*nm divided by the raw Angstrom figure) to better
than 1e-6 keV, but differs from the specified E = hc[keV*Angstrom] /
lambda[Angstrom] by more than 6 keV; ten times the recorded energy is
the specified value to better than 1e-3 keV, exhibiting the factor-ten
unit slip. -/
theorem energy_conversion_factor_ten_bug :
    |energy_of_wavelength_code recorded_wavelength - recorded_energy| < 1 / 1000000
    ∧ |recorded_energy - energy_of_wavelength_spec recorded_wavelength| > 6
    ∧ |10 * recorded_energy - energy_of_wavelength_spec recorded_wavelength| < 1 / 1000 := by
  refine ⟨?_, ?_, ?_⟩
  · rw [abs_lt]
    norm_num [energy_of_wavelength_code, energy_of_wavelength_spec, hc_keV_angstrom,
      recorded_wavelength, recorded_energy]
  · rw [gt_iff_lt, lt_abs]
    right
    norm_num [energy_of_wavelength_code, energy_of_wavelength_spec, hc_keV_angstrom,
      recorded_wavelength, recorded_energy]
  · rw [abs_lt]
    norm_num [energy_of_wavelength_code, energy_of_wavelength_spec, hc_keV_angstrom,
      recorded_wavelength, recorded_energy]

/-- C8 (bug evidence): invoking the inverse entry path with all six
physical axis values unset propagates the modelled generic type failure
from the axis-value setter, which is not the `AxisNameError` the
contract calls for. -/
theorem inverse_unset_values_generic_failure (e : Engine) :
    calc_inverse_raw e (List.replicate 6 none) = .error .typeError
    ∧ EngineError.typeError ≠ EngineError.axisName := by
  constructor
  · rfl
  · intro h
    exact EngineError.noConfusion h

/-! ## Concrete evaluations for the checks -/

/-- Radians-to-degrees at 0. -/
theorem degOf_zero : degOf 0 = 0 := by
  unfold degOf
  simp

/-- Radians-to-degrees at pi. -/
theorem degOf_pi : degOf Real.pi = 180 := by
  unfold degOf
  rw [mul_comm, mul_div_assoc, div_self Real.pi_ne_zero, mul_one]

/-- Radians-to-degrees at minus pi. -/
theorem degOf_neg_pi : degOf (-Real.pi) = -180 := by
  unfold degOf
  rw [neg_mul, neg_div, mul_comm, mul_div_assoc, div_self Real.pi_ne_zero, mul_one]

/-- The wave vector magnitude at unit wavelength. -/
theorem kvec_one : kvec 1 = 2 * Real.pi := by
  unfold kvec
  norm_num

/-- The target vector of the identity-UB engine at the zero target. -/
theorem qTarget_engine0 : qTarget engine0 (0 : Fin 3 → ℝ) = 0 := by
  unfold qTarget
  rw [Matrix.mulVec_zero, Matrix.mulVec_zero]

/-- Every branch constructed for the zero target of the identity-UB
engine has mu 0 and the fixed axes 0. -/
theorem mkBranch_engine0 (gam dl : ℝ) :
    mkBranch engine0 (0 : Fin 3 → ℝ) gam dl
      = { mu := 0, omega := 0, chi := 0, phi := 0,
          gamma := degOf gam, delta := degOf dl } := by
  unfold mkBranch muFromXY
  have hw : (⟨(0 : Fin 3 → ℝ) 0, (0 : Fin 3 → ℝ) 1⟩ : ℂ) = 0 := by
    simp [Complex.ext_iff]
  rw [hw]
  simp [degOf_zero, engine0, axis0]

/-- The enumerated branch list of the identity-UB engine at the zero
target. -/
theorem branchList_engine0 :
    branchList engine0 (0 : Fin 3 → ℝ)
      = [{ mu := 0, omega := 0, chi := 0, phi := 0, gamma := 0, delta := 0 },
         { mu := 0, omega := 0, chi := 0, phi := 0, gamma := 0, delta := 0 },
         { mu := 0, omega := 0, chi := 0, phi := 0, gamma := 180, delta := 180 },
         { mu := 0, omega := 0, chi := 0, phi := 0, gamma := -180, delta := 180 }] := by
  have hs : sParam engine0 (0 : Fin 3 → ℝ) = 0 := by
    unfold sParam
    rw [qTarget_engine0]
    simp
  have hc : cParam engine0 (0 : Fin 3 → ℝ) = 1 := by
    unfold cParam
    rw [qTarget_engine0]
    simp [dot3]
  unfold branchList deltaBranches gammaBranches
  rw [hs, hc, if_pos (by norm_num)]
  rw [Real.arcsin_zero, sub_zero]
  simp only [List.flatMap_cons, List.flatMap_nil, List.append_nil, List.map_cons,
    List.map_nil, Real.cos_zero, Real.cos_pi]
  rw [if_pos (by norm_num), if_pos (by norm_num)]
  norm_num [Real.arccos_one, Real.arccos_neg_one, qTarget_engine0]
  refine ⟨?_, ?_, ?_⟩ <;>
    rw [mkBranch_engine0] <;>
    simp [degOf_zero, degOf_pi, degOf_neg_pi]

/-- The forward solve of the identity-UB engine at the zero target
returns the four limit-respecting branches. -/
theorem forward_engine0 :
    forward engine0 (0 : Fin 3 → ℝ)
      = .ok [{ mu := 0, omega := 0, chi := 0, phi := 0, gamma := 0, delta := 0 },
             { mu := 0, omega := 0, chi := 0, phi := 0, gamma := 0, delta := 0 },
             { mu := 0, omega := 0, chi := 0, phi := 0, gamma := 180, delta := 180 },
             { mu := 0, omega := 0, chi := 0, phi := 0, gamma := -180, delta := 180 }] := by
  have hfit1 : fitOk engine0 { mu := 0, omega := 0, chi := 0, phi := 0, gamma := 0, delta := 0 } := by
    refine ⟨⟨?_, ?_⟩, ⟨?_, ?_⟩, ⟨?_, ?_⟩⟩ <;> norm_num [engine0, axis0]
  have hfit2 : fitOk engine0 { mu := 0, omega := 0, chi := 0, phi := 0, gamma := 180, delta := 180 } := by
    refine ⟨⟨?_, ?_⟩, ⟨?_, ?_⟩, ⟨?_, ?_⟩⟩ <;> norm_num [engine0, axis0]
  have hfit3 : fitOk engine0 { mu := 0, omega := 0, chi := 0, phi := 0, gamma := -180, delta := 180 } := by
    refine ⟨⟨?_, ?_⟩, ⟨?_, ?_⟩, ⟨?_, ?_⟩⟩ <;> norm_num [engine0, axis0]
  unfold forward
  rw [branchList_engine0]
  rw [List.filter_cons_of_pos (by simpa using hfit1),
    List.filter_cons_of_pos (by simpa using hfit1),
    List.filter_cons_of_pos (by simpa using hfit2),
    List.filter_cons_of_pos (by simpa using hfit3),
    List.filter_nil]
  rfl

/-- Degrees-to-radians at 0. -/
theorem radOf_zero : radOf 0 = 0 := by
  unfold radOf
  simp

/-- Degrees-to-radians at 90. -/
theorem radOf_ninety : radOf 90 = Real.pi / 2 := by
  unfold radOf
  ring

/-- The z rotation at angle 0 is the identity. -/
theorem Rz_zero : Rz 0 = 1 := by
  ext i j
  fin_cases i <;> fin_cases j <;>
    simp [Rz, Matrix.one_apply, Matrix.vecHead, Matrix.vecTail]

/-- The -y rotation at angle 0 is the identity. -/
theorem Rmy_zero : Rmy 0 = 1 := by
  ext i j
  fin_cases i <;> fin_cases j <;>
    simp [Rmy, Matrix.one_apply, Matrix.vecHead, Matrix.vecTail]

/-- The x rotation at angle 0 is the identity. -/
theorem Rx_zero : Rx 0 = 1 := by
  ext i j
  fin_cases i <;> fin_cases j <;>
    simp [Rx, Matrix.one_apply, Matrix.vecHead, Matrix.vecTail]

/-- The cubic example cell has unit volume. -/
theorem cellVolume_cubic : cellVolume latticeCubic = 1 := by
  unfold cellVolume latticeCubic
  norm_num [radOf_ninety, Real.cos_pi_div_two, Real.sqrt_one]

/-- The B matrix of the cubic example cell is 2*pi times the identity. -/
theorem Bmat_cubic :
    Bmat latticeCubic = (2 * Real.pi) • (1 : Matrix (Fin 3) (Fin 3) ℝ) := by
  unfold Bmat aStar bStar cStar cosBetaStar cosGammaStar
  rw [cellVolume_cubic]
  ext i j
  fin_cases i <;> fin_cases j <;>
    norm_num [latticeCubic, radOf_ninety, Real.cos_pi_div_two, Real.sin_pi_div_two,
      Real.sqrt_one, Matrix.one_apply, Matrix.smul_apply, Fin.ext_iff]

/-- The sample rotation of the gamma-only example position is the
identity. -/
theorem sampleRot_posG90 : sampleRot posG90 = 1 := by
  simp [sampleRot, posG90, radOf_zero, Rz_zero, Rmy_zero, Rx_zero]

/-- The sample rotation of the delta-only example position is the
identity. -/
theorem sampleRot_posD90 : sampleRot posD90 = 1 := by
  simp [sampleRot, posD90, radOf_zero, Rz_zero, Rmy_zero, Rx_zero]

/-- The observed scattering vector at gamma = 90. -/
theorem qOf_posG90 : qOf 1 posG90 = ![-(2 * Real.pi), 2 * Real.pi, 0] := by
  rw [qOf_eval]
  funext i
  fin_cases i <;>
    simp [posG90, radOf_ninety, radOf_zero, Real.cos_pi_div_two, Real.sin_pi_div_two,
      kvec_one]

/-- The observed scattering vector at delta = 90. -/
theorem qOf_posD90 : qOf 1 posD90 = ![-(2 * Real.pi), 0, 2 * Real.pi] := by
  rw [qOf_eval]
  funext i
  fin_cases i <;>
    simp [posD90, radOf_ninety, radOf_zero, Real.cos_pi_div_two, Real.sin_pi_div_two,
      kvec_one]

/-- Reconstructed measured vector of the first example reflection. -/
theorem uPhi_reflWit1 : uPhi reflWit1 = ![-(2 * Real.pi), 2 * Real.pi, 0] := by
  unfold uPhi
  have h1 : reflWit1.position = posG90 := rfl
  have h2 : reflWit1.wavelength = 1 := rfl
  rw [h1, h2, sampleRot_posG90, qOf_posG90, Matrix.transpose_one, Matrix.one_mulVec]

/-- Reconstructed measured vector of the second example reflection. -/
theorem uPhi_reflWit2 : uPhi reflWit2 = ![-(2 * Real.pi), 0, 2 * Real.pi] := by
  unfold uPhi
  have h1 : reflWit2.position = posD90 := rfl
  have h2 : reflWit2.wavelength = 1 := rfl
  rw [h1, h2, sampleRot_posD90, qOf_posD90, Matrix.transpose_one, Matrix.one_mulVec]

/-- The two example reflections are not degenerate. -/
theorem notdeg_wit : ¬ degenerate (Bmat sampleWit.lattice) reflWit1 reflWit2 := by
  have hlat : sampleWit.lattice = latticeCubic := rfl
  rw [hlat, Bmat_cubic]
  unfold degenerate
  push_neg
  constructor
  · intro hcon
    have h2 := congrFun hcon 2
    have hh1 : reflWit1.hkl = ![1, 0, 0] := rfl
    have hh2 : reflWit2.hkl = ![0, 1, 0] := rfl
    rw [hh1, hh2] at h2
    simp [cross3, Matrix.smul_mulVec_assoc, Matrix.one_mulVec,
      Real.pi_ne_zero] at h2
  · intro hcon
    have h0 := congrFun hcon 0
    rw [uPhi_reflWit1, uPhi_reflWit2] at h0
    simp [cross3, Real.pi_ne_zero] at h0

/-! ## Concrete checks of the hypothesis-bearing theorems -/

/-- Check of the round-trip theorem on a concrete engine and target. -/
theorem forward_inverse_roundtrip_check :
    inverse engine0 { mu := 0, omega := 0, chi := 0, phi := 0, gamma := 0, delta := 0 }
      = .ok (0, { writePhysical engine0
          { mu := 0, omega := 0, chi := 0, phi := 0, gamma := 0, delta := 0 } with
          pseudo := 0 }) :=
  forward_inverse_roundtrip engine0 0 _ _ forward_engine0 (List.mem_cons_self _ _)
    (by simp [engine0, sampleId]) (by norm_num [engine0])

/-- Check of the limit-filtering theorem on a concrete engine and
target. -/
theorem forward_limits_check :
    (({ mu := 0, omega := 0, chi := 0, phi := 0, gamma := 0, delta := 0 } : Position).omega
        = engine0.omega.value
      ∧ ({ mu := 0, omega := 0, chi := 0, phi := 0, gamma := 0, delta := 0 } : Position).chi
        = engine0.chi.value
      ∧ ({ mu := 0, omega := 0, chi := 0, phi := 0, gamma := 0, delta := 0 } : Position).phi
        = engine0.phi.value)
    ∧ fitOk engine0 { mu := 0, omega := 0, chi := 0, phi := 0, gamma := 0, delta := 0 } :=
  (forward_solutions_within_limits engine0 0).1 _ _ forward_engine0 (List.mem_cons_self _ _)

/-- Check of the degenerate compute_UB theorem at a collinear pair and
at an empty reflection list. -/
theorem compute_UB_degenerate_check :
    compute_UB sampleCol 0 1 = .error .degenerateReflections
    ∧ compute_UB sampleId 0 1 = .error .degenerateReflections :=
  ⟨(compute_UB_needs_independent sampleCol 0 1).1 reflWit1 reflCol2 2 rfl rfl
      (by funext i; fin_cases i <;> simp [reflWit1, reflCol2]),
   (compute_UB_needs_independent sampleId 0 1).2 (by simp [sampleId])⟩

/-- Check of the limit-respecting set-value theorem on a pinned axis. -/
theorem set_value_check :
    set_value { value := 0, lo := 0, hi := 0, fit := false } 1 = .error .limitViolation
    ∧ set_value { value := 0, lo := 0, hi := 0, fit := false } 0
        = .ok { value := 0, lo := 0, hi := 0, fit := false } :=
  ⟨(set_value_respects_limits _ 1).2.2.2 0 rfl rfl (by norm_num),
   (set_value_respects_limits { value := 0, lo := 0, hi := 0, fit := false } 0).2.1
      ⟨le_refl 0, le_refl 0⟩⟩

/-- Check of the inverse mutation theorem at an input whose gamma (90)
differs from the engine's stored gamma value (0): after the call the
store holds the input. -/
theorem inverse_writes_physical_check :
    ({ writePhysical engine0 posG90 with
        pseudo := inverseVal engine0 posG90 } : Engine).gamma.value = posG90.gamma
      ∧ posG90.gamma = 90 ∧ engine0.gamma.value = 0 := by
  have hok : inverse engine0 posG90
      = .ok (inverseVal engine0 posG90,
             { writePhysical engine0 posG90 with pseudo := inverseVal engine0 posG90 }) := by
    unfold inverse
    rw [if_neg (by simp [engine0, sampleId] : ¬ engine0.sample.UB.det = 0)]
  exact ⟨(inverse_writes_physical_positions engine0 posG90 _ _ hok).2.2.2.2.2.1, rfl, rfl⟩

/-- Check of the successful compute_UB path on two non-collinear
reflections. -/
theorem compute_UB_success_check :
    compute_UB sampleWit 0 1
      = .ok ({ sampleWit with
               U := busingLevyU (Bmat sampleWit.lattice) reflWit1 reflWit2,
               UB := busingLevyU (Bmat sampleWit.lattice) reflWit1 reflWit2
                 * Bmat sampleWit.lattice }, 1) :=
  (add_reflection_compute_UB_frame sampleWit 0 posZero 1 0 1).2 reflWit1 reflWit2
    rfl rfl notdeg_wit

end Hkl

end
